import Mathlib

set_option maxHeartbeats 1000000

/-!
Verification development for the TajGST temperature-logger scripts
(`scripts/plot_ground_temperature.py`, `scripts/interactive_map.py`,
`scripts/apply_time_offset_sangvor.py`).

The Python code is shallowly embedded: timestamps are modelled as seconds
on the proleptic Gregorian calendar (`datetime` objects of the valid range
are in bijection with these counts), temperatures as exact rationals
(`float` values are never compared or combined by the scripts, only
carried along, so exact decimal arithmetic is a faithful stand-in), and
CSV rows as lists of fields.  Python dictionaries keyed by strings are
modelled as functions `String → Option _`; Python's stable `list.sort` is
modelled by a stable insertion sort (all stable sorts agree pointwise).
-/

namespace TajGST

/-! ### Python string primitives -/

/-- Python `str.strip()` (ASCII whitespace) on a character list. -/
def trimChars (l : List Char) : List Char :=
  ((l.dropWhile Char.isWhitespace).reverse.dropWhile Char.isWhitespace).reverse

/-- Python `str.strip()`. -/
def pyStrip (s : String) : String := ⟨trimChars s.toList⟩

/-- Python `str.split(sep)` for a one-character separator: `"a;;b" → ["a","","b"]`,
`"" → [""]`. -/
def splitOnChar (c : Char) : List Char → List (List Char)
  | [] => [[]]
  | a :: rest =>
    if a = c then [] :: splitOnChar c rest
    else
      match splitOnChar c rest with
      | [] => [[a]]
      | g :: gs => (a :: g) :: gs

/-- Python `str.split(sep)` on strings. -/
def pySplit (c : Char) (s : String) : List String :=
  (splitOnChar c s.toList).map (fun l => ⟨l⟩)

/-- Whether `pat` is a leading segment of `text`. -/
def listStart : List Char → List Char → Bool
  | [], _ => true
  | _ :: _, [] => false
  | a :: as, b :: bs => a = b && listStart as bs

/-- Python's `pat in s` substring test, on character lists. -/
def hasSubList (pat : List Char) : List Char → Bool
  | [] => listStart pat []
  | b :: bs => listStart pat (b :: bs) || hasSubList pat bs

/-- Python's `pat in s` substring test. -/
def pyContainsSub (pat s : String) : Bool := hasSubList pat.toList s.toList

/-- Python `str.lower()` (ASCII). -/
def pyLower (s : String) : String := ⟨s.toList.map Char.toLower⟩

/-- Python `str.upper()` (ASCII). -/
def pyUpper (s : String) : String := ⟨s.toList.map Char.toUpper⟩

/-- Python `str.endswith(suffix)`. -/
def pyEndsWith (suf s : String) : Bool :=
  listStart suf.toList.reverse s.toList.reverse

/-! ### Proleptic Gregorian calendar (Python `datetime` arithmetic)

Day counts use Howard Hinnant's civil-calendar algorithms with epoch
0000-03-01, restricted to `Nat` (all dates handled by the scripts have
year ≥ 1, so no negative quantity arises). -/

def isLeap (y : Nat) : Bool := y % 4 = 0 && (y % 100 ≠ 0 || y % 400 = 0)

def daysInMonth (y m : Nat) : Nat :=
  if m = 2 then (if isLeap y then 29 else 28)
  else if m = 4 ∨ m = 6 ∨ m = 9 ∨ m = 11 then 30
  else 31

/-- Days since 0000-03-01 of the civil date `y-m-d` (requires `1 ≤ y`). -/
def daysFromCivil (y m d : Nat) : Nat :=
  let ys := if m ≤ 2 then y - 1 else y
  let era := ys / 400
  let yoe := ys - era * 400
  let mp := if 2 < m then m - 3 else m + 9
  let doy := (153 * mp + 2) / 5 + (d - 1)
  let doe := yoe * 365 + yoe / 4 - yoe / 100 + doy
  era * 146097 + doe

/-- Civil date `(y, m, d)` of a day count since 0000-03-01. -/
def civilFromDays (z : Nat) : Nat × Nat × Nat :=
  let era := z / 146097
  let doe := z % 146097
  let yoe := (doe - doe / 1460 + doe / 36524 - doe / 146096) / 365
  let doy := doe - (365 * yoe + yoe / 4 - yoe / 100)
  let mp := (5 * doy + 2) / 153
  let d := doy - (153 * mp + 2) / 5 + 1
  let m := if mp < 10 then mp + 3 else mp - 9
  (if m ≤ 2 then era * 400 + yoe + 1 else era * 400 + yoe, m, d)

/-- A Python `datetime` value (no timezone, microseconds unused by the
scripts). -/
structure DT where
  year : Nat
  month : Nat
  day : Nat
  hour : Nat
  minute : Nat
  second : Nat
deriving DecidableEq, Repr

/-- Seconds since 0000-03-01 00:00:00; a strictly monotone injection of
valid `datetime`s, so `datetime` comparison and equality coincide with
`Nat` comparison and equality of these counts. -/
def dtSecs (t : DT) : Nat :=
  daysFromCivil t.year t.month t.day * 86400 + t.hour * 3600 + t.minute * 60 + t.second

/-- The `datetime` with the given second count since 0000-03-01. -/
def secsToDT (n : Nat) : DT :=
  let c := civilFromDays (n / 86400)
  let rem := n % 86400
  ⟨c.1, c.2.1, c.2.2, rem / 3600, rem % 3600 / 60, rem % 60⟩

/-! ### `datetime.strptime(s, "%d.%m.%Y %H:%M:%S")`

CPython compiles the format to the regex
`(3[01]|[12]\d|0[1-9]|[1-9])\.(1[0-2]|0[1-9]|[1-9])\.(\d\d\d\d)\s+
(2[0-3]|[0-1]\d|\d):([0-5]\d|\d):([0-5]\d|\d)`, requires it to consume
the whole string, and then builds `datetime(y, m, d, ...)`, which raises
unless `1 ≤ y` and the day fits the month.  Because every literal in the
format is a non-digit, the regex backtracking can never succeed where the
greedy two-digit-first reading below fails, so the embedding is exact. -/

def digitVal (c : Char) : Nat := c.toNat - 48

/-- One numeric field: a two-digit reading passing `twoOK` is preferred,
otherwise a one-digit reading passing `oneOK`. -/
def numField (twoOK oneOK : Nat → Bool) : List Char → Option (Nat × List Char)
  | a :: b :: rest =>
    if a.isDigit && b.isDigit && twoOK (digitVal a * 10 + digitVal b) then
      some (digitVal a * 10 + digitVal b, rest)
    else if a.isDigit && oneOK (digitVal a) then some (digitVal a, b :: rest)
    else none
  | [a] => if a.isDigit && oneOK (digitVal a) then some (digitVal a, []) else none
  | [] => none

/-- A literal character of the format. -/
def litChar (c : Char) : List Char → Option (List Char)
  | a :: rest => if a = c then some rest else none
  | [] => none

/-- Whitespace in the format matches `\s+`. -/
def wsPlus : List Char → Option (List Char)
  | a :: rest =>
    if a.isWhitespace then some (rest.dropWhile Char.isWhitespace) else none
  | [] => none

/-- Field `%Y`: exactly four digits. -/
def year4 : List Char → Option (Nat × List Char)
  | a :: b :: c :: d :: rest =>
    if a.isDigit && b.isDigit && c.isDigit && d.isDigit then
      some (((digitVal a * 10 + digitVal b) * 10 + digitVal c) * 10 + digitVal d, rest)
    else none
  | _ => none

/-- Model of `datetime.strptime(s, "%d.%m.%Y %H:%M:%S")`, `none` for the raised
`ValueError`. -/
def pyStrptimeDMY? (s : String) : Option DT := do
  let cs := s.toList
  let (d, cs) ← numField (fun v => 1 ≤ v && v ≤ 31) (fun v => 1 ≤ v && v ≤ 9) cs
  let cs ← litChar '.' cs
  let (m, cs) ← numField (fun v => 1 ≤ v && v ≤ 12) (fun v => 1 ≤ v && v ≤ 9) cs
  let cs ← litChar '.' cs
  let (y, cs) ← year4 cs
  let cs ← wsPlus cs
  let (hh, cs) ← numField (fun v => v ≤ 23) (fun v => v ≤ 9) cs
  let cs ← litChar ':' cs
  let (mi, cs) ← numField (fun v => v ≤ 59) (fun v => v ≤ 9) cs
  let cs ← litChar ':' cs
  let (ss, cs) ← numField (fun v => v ≤ 59) (fun v => v ≤ 9) cs
  if cs = [] ∧ 1 ≤ y ∧ d ≤ daysInMonth y m then some ⟨y, m, d, hh, mi, ss⟩
  else none

/-! ### Python `float(s)`

Decimal literals with optional sign, fraction and exponent, surrounded by
optional whitespace; the value is kept as an exact rational (the scripts
never compare or combine temperatures, and coordinate range checks only
touch exactly representable bounds).  The `inf`/`nan` words and digit
underscores accepted by Python do not occur in logger data and are not
modelled. -/

def digitsToNat (l : List Char) : Nat := l.foldl (fun a c => a * 10 + digitVal c) 0

/-- The exponent tail `[eE][+-]?digits` followed by end of input. -/
def expTail (sgn mant : ℚ) (r : List Char) : Option ℚ :=
  let (esgn, r) :=
    match r with
    | '+' :: r2 => (true, r2)
    | '-' :: r2 => (false, r2)
    | r2 => (true, r2)
  let (ed, r) := r.span Char.isDigit
  if ed = [] ∨ r ≠ [] then none
  else
    let e := digitsToNat ed
    some (if esgn then sgn * mant * 10 ^ e else sgn * mant / 10 ^ e)

/-- Python `float(s)`, `none` for the raised `ValueError`. -/
def pyFloat? (s : String) : Option ℚ :=
  let cs := trimChars s.toList
  let (sgn, cs) :=
    match cs with
    | '+' :: r => ((1 : ℚ), r)
    | '-' :: r => ((-1 : ℚ), r)
    | r => ((1 : ℚ), r)
  let (ip, cs) := cs.span Char.isDigit
  let (fp, cs) :=
    match cs with
    | '.' :: r => r.span Char.isDigit
    | r => ([], r)
  if ip = [] ∧ fp = [] then none
  else
    let mant : ℚ := (digitsToNat ip : ℚ) + (digitsToNat fp : ℚ) / ((10 : ℚ) ^ fp.length)
    match cs with
    | [] => some (sgn * mant)
    | 'e' :: r => expTail sgn mant r
    | 'E' :: r => expTail sgn mant r
    | _ => none

/-! ### Row parsers (`plot_ground_temperature.py`)

A parsed sample is a `(timestamp, temperature)` pair.  Both parsers in the
source append into two separate Python lists; the embeddings below build
the two result lists in the same order, with each line's contribution
decided exactly as in the source `try` blocks. -/

abbrev Sample := Nat × ℚ

/-- One post-header line of `parse_sangvor_file`: the guards and the `try`
block, in source order.  In the source, `strptime` and `float` are both
evaluated before either `append`, so a line contributes either one pair or
nothing. -/
def sangvorLine? (line : String) : Option Sample :=
  let l := pyStrip line
  if l = "" ∨ ¬ (l.toList.contains ';') then none
  else
    let parts := pySplit ';' l
    if parts.length < 2 then none
    else
      match pyStrptimeDMY? (pyStrip (parts.headD "")), pyFloat? (pyStrip (parts.getD 1 "")) with
      | some t, some v => some (dtSecs t, v)
      | _, _ => none

/-- The `for row_num, line in enumerate(handle, 1)` loop of
`parse_sangvor_file`. -/
def sangvorLoop (skip : Nat) : Nat → List String → List Nat × List ℚ
  | _, [] => ([], [])
  | rowNum, line :: rest =>
    if rowNum ≤ skip then sangvorLoop skip (rowNum + 1) rest
    else
      match sangvorLine? line with
      | some p =>
        let r := sangvorLoop skip (rowNum + 1) rest
        (p.1 :: r.1, p.2 :: r.2)
      | none => sangvorLoop skip (rowNum + 1) rest

/-- Model of `parse_sangvor_file(path, skip_lines)`, on the file's lines. -/
def parse_sangvor_file (lines : List String) (skip : Nat := 22) : List Nat × List ℚ :=
  sangvorLoop skip 1 lines

/-- The body of the `parse_fanmountains_file` loop on one CSV row, mirroring
the source's two `try` blocks: the `IndexError` guard needs at least three
columns, and inside the second `try` the timestamp is **appended before**
the temperature is parsed, so a row whose timestamp parses but whose
temperature does not contributes an orphan timestamp.  The result says
which of the two lists the row extends. -/
inductive FanRow where
  | skip
  | tsOnly (t : Nat)
  | both (t : Nat) (v : ℚ)
deriving DecidableEq, Repr

def fanRowStep (row : List String) : FanRow :=
  if row = [] then .skip
  else
    let first := pyStrip (row.headD "")
    if first = "" ∨ (first.toList.headD ' ' = '<') then .skip
    else if pyUpper first = "NO" then .skip
    else if row.length < 3 then .skip
    else
      match pyStrptimeDMY? (pyStrip (row.getD 1 "")), pyFloat? (pyStrip (row.getD 2 "")) with
      | none, _ => .skip
      | some t, none => .tsOnly (dtSecs t)
      | some t, some v => .both (dtSecs t) v

/-- The `for row_num, row in enumerate(reader, 1)` loop of
`parse_fanmountains_file`. -/
def fanLoop (skip : Nat) : Nat → List (List String) → List Nat × List ℚ
  | _, [] => ([], [])
  | rowNum, row :: rest =>
    if rowNum ≤ skip then fanLoop skip (rowNum + 1) rest
    else
      let r := fanLoop skip (rowNum + 1) rest
      match fanRowStep row with
      | .skip => r
      | .tsOnly t => (t :: r.1, r.2)
      | .both t v => (t :: r.1, v :: r.2)

/-- Model of `parse_fanmountains_file(path, skip_lines)`, on the CSV rows, including
the final truncation of both lists to the shorter length. -/
def parse_fanmountains_file (rows : List (List String)) (skip : Nat := 12) :
    List Nat × List ℚ :=
  let r := fanLoop skip 1 rows
  let m := min r.1.length r.2.length
  (r.1.take m, r.2.take m)

/-! ### Series merger (`concatenate_timeseries`)

`combined.sort(key=lambda x: x[0])` is Python's stable sort by timestamp;
it is modelled by a stable insertion sort (any two stable sorts agree on
every input).  The duplicate scan keeps a `last_timestamp` that starts as
`None`. -/

/-- Stable insertion of a sample into a key-sorted list: the new element
goes in front of existing elements with an equal timestamp only when it
comes earlier in the original list, which is exactly what `ssort` below
arranges. -/
def sinsert (p : Sample) : List Sample → List Sample
  | [] => [p]
  | q :: qs => if p.1 ≤ q.1 then p :: q :: qs else q :: sinsert p qs

/-- Stable sort by timestamp (model of `list.sort(key=lambda x: x[0])`). -/
def ssort : List Sample → List Sample
  | [] => []
  | p :: ps => sinsert p (ssort ps)

/-- The duplicate-collapsing scan: `if timestamp != last_timestamp`. -/
def collapse : Option Nat → List Sample → List Sample
  | _, [] => []
  | last, p :: ps =>
    if some p.1 = last then collapse last ps else p :: collapse (some p.1) ps

/-- The sort-then-collapse core of `concatenate_timeseries`, applied to the
concatenation of all parsed pairs of a file group (the per-file parsing is
factored out: the argument is the concatenated parser output). -/
def mergeSeries (l : List Sample) : List Sample :=
  if l = [] then [] else collapse none (ssort l)

/-- Model of `concatenate_timeseries(file_group)` on the parsed per-file sample
lists; the source returns the zipped pair of lists. -/
def concatenate_timeseries (groups : List (List Sample)) : List Nat × List ℚ :=
  let u := mergeSeries groups.flatten
  (u.map Prod.fst, u.map Prod.snd)

/-- First temperature at timestamp `t` in concatenation order. -/
def firstAt (t : Nat) (l : List Sample) : Option ℚ :=
  (l.find? (fun p => p.1 = t)).map Prod.snd

/-! ### `apply_time_offset_sangvor.py` -/

/-- Regex digits-then-literal optional group `(?:(\d+)lit)?`: greedy digits
followed by the literal; on failure the group consumes nothing.  (`\d+` is
a maximal digit run and every literal starts with a non-digit, so regex
backtracking can never produce a different outcome.) -/
def tryNumThen (lit : List Char) (cs : List Char) : Option Nat × List Char :=
  let r := cs.span Char.isDigit
  if r.1 ≠ [] ∧ listStart lit r.2 then (some (digitsToNat r.1), r.2.drop lit.length)
  else (none, cs)

def skipWs (cs : List Char) : List Char := cs.dropWhile Char.isWhitespace

/-- Model of `re.match(r"(?:(\d+)d)?\s*(?:(\d+)h)?\s*(?:(\d+)min)?\s*(?:(\d+)sec)?", s)`:
four optional groups separated by `\s*`.  Every group is optional, so the
match never fails (it may be empty); the `Option` layer records the
`if not match` test of the source. -/
def matchOffset (cs : List Char) : Option (Option Nat × Option Nat × Option Nat × Option Nat) :=
  let d := tryNumThen ['d'] cs
  let h := tryNumThen ['h'] (skipWs d.2)
  let mi := tryNumThen ['m', 'i', 'n'] (skipWs h.2)
  let s2 := tryNumThen ['s', 'e', 'c'] (skipWs mi.2)
  some (d.1, h.1, mi.1, s2.1)

/-- Model of the replace call removing all spaces from the offset string. -/
def stripSpaces (s : String) : String := ⟨s.toList.filter (fun c => decide (c ≠ ' '))⟩

/-- Model of `parse_offset(offset_str)`; the `timedelta` result is its total number
of seconds (all four regex groups are nonnegative integers). -/
def parse_offset (s : String) : Except String Nat :=
  match matchOffset (stripSpaces s).toList with
  | none => Except.error ("Invalid offset string: " ++ s)
  | some g =>
    Except.ok (g.1.getD 0 * 86400 + g.2.1.getD 0 * 3600 + g.2.2.1.getD 0 * 60 + g.2.2.2.getD 0)

def SKIP_LINES : Nat := 22

/-- Zero-padding to two digits used by `strftime` for `%d %m %H %M %S`. -/
def pad2 (n : Nat) : String := if n < 10 then "0" ++ toString n else toString n

/-- Format `%Y` of the four-digit years produced here. -/
def pad4 (n : Nat) : String :=
  if n < 10 then "000" ++ toString n
  else if n < 100 then "00" ++ toString n
  else if n < 1000 then "0" ++ toString n
  else toString n

/-- Model of `dt.strftime("%d.%m.%Y %H:%M:%S")`. -/
def fmtDT (t : DT) : String :=
  pad2 t.day ++ "." ++ pad2 t.month ++ "." ++ pad4 t.year ++ " " ++
    pad2 t.hour ++ ":" ++ pad2 t.minute ++ ":" ++ pad2 t.second

/-- One post-header line of `process_file`: blank / semicolon-free lines and
lines with fewer than two fields pass through; otherwise the first field is
parsed, shifted and reformatted.  `dt + offset` raises `OverflowError`
beyond year 9999, and the bare `except` then writes the line unchanged. -/
def shiftLine (off : Nat) (line : String) : String :=
  if line = "" ∨ ¬ (line.toList.contains ';') then line
  else
    let parts := pySplit ';' line
    if parts.length < 2 then line
    else
      match pyStrptimeDMY? (pyStrip (parts.headD "")) with
      | none => line
      | some dt =>
        let t2 := secsToDT (dtSecs dt + off)
        if 9999 < t2.year then line
        else fmtDT t2 ++ ";" ++ String.intercalate ";" parts.tail

/-- The `for i, line in enumerate(infile, 1)` loop of `process_file`: the
first `SKIP_LINES` lines are written unchanged. -/
def processLines (off : Nat) : Nat → List String → List String
  | _, [] => []
  | i, l :: ls =>
    (if i ≤ SKIP_LINES then l else shiftLine off l) :: processLines off (i + 1) ls

/-- Model of `process_file(path, offset)` on the file's lines (newline handling is
identity on the line contents). -/
def process_file (off : Nat) (lines : List String) : List String :=
  processLines off 1 lines

/-! ### File grouper (`group_files_by_logger_id`)

A path is its list of components (`Path` objects compare by their
component tuples, so lexicographic order on component lists is the order
used by `list.sort()`). -/

abbrev PathT := List String

def pathStr (p : PathT) : String := String.intercalate "/" p

def fileName (p : PathT) : String := (p.getLast?).getD ""

/-- Index of the last occurrence of `c`. -/
def lastIdx (c : Char) : List Char → Option Nat
  | [] => none
  | a :: as =>
    match lastIdx c as with
    | some i => some (i + 1)
    | none => if a = c then some 0 else none

/-- Python `Path.stem`: the file name without its final suffix; a leading dot or a
trailing dot is not a suffix. -/
def pyStem (n : String) : String :=
  let cs := n.toList
  match lastIdx '.' cs with
  | some i => if 0 < i ∧ i + 1 < cs.length then ⟨cs.take i⟩ else n
  | none => n

/-- Python `csv_file.parent.parent.name` (empty for too-short relative paths). -/
def grandName (p : PathT) : String := ((p.dropLast.dropLast).getLast?).getD ""

def isSangvorPath (p : PathT) : Bool := pyContainsSub "sangvor" (pyLower (pathStr p))

/-- The metadata-file exclusion: `"metadata" in str(csv_file) or
csv_file.name.endswith("meta.csv")`. -/
def isMetadataFile (p : PathT) : Bool :=
  pyContainsSub "metadata" (pathStr p) || pyEndsWith "meta.csv" (fileName p)

/-- Logger-id extraction for one file: the stem up to the first underscore;
for non-sangvor files a too-short candidate is replaced by the grandparent
directory name when that name is truthy and longer than three characters. -/
def loggerIdOf (p : PathT) : String :=
  let cand := (pySplit '_' (pyStem (fileName p))).headD ""
  if isSangvorPath p then cand
  else if cand = "" ∨ cand.length < 3 then
    (if grandName p ≠ "" ∧ 3 < (grandName p).length then grandName p else cand)
  else cand

/-- Model of `grouped[logger_id].append(csv_file)` with dict auto-creation. -/
def addToGroup (m : String → Option (List PathT)) (id : String) (f : PathT) :
    String → Option (List PathT) :=
  fun k => if k = id then some (((m id).getD []) ++ [f]) else m k

/-- One iteration of the grouping loop. -/
def groupStep (m : String → Option (List PathT)) (f : PathT) :
    String → Option (List PathT) :=
  if isMetadataFile f then m
  else if loggerIdOf f = "" then m
  else addToGroup m (loggerIdOf f) f

def groupRaw : List PathT → (String → Option (List PathT)) → (String → Option (List PathT))
  | [], m => m
  | f :: fs, m => groupRaw fs (groupStep m f)

/-- Lexicographic path comparison used by `grouped[logger_id].sort()`. -/
def pathLeB : List String → List String → Bool
  | [], _ => true
  | _ :: _, [] => false
  | a :: as, b :: bs => if a < b then true else if b < a then false else pathLeB as bs

/-- Generic stable insertion sort on a boolean comparator. -/
def insertLe {α : Type} (le : α → α → Bool) (x : α) : List α → List α
  | [] => [x]
  | y :: ys => if le x y then x :: y :: ys else y :: insertLe le x ys

def sortLe {α : Type} (le : α → α → Bool) : List α → List α
  | [] => []
  | x :: xs => insertLe le x (sortLe le xs)

/-- Model of `group_files_by_logger_id(csv_files)`: build the groups in discovery
order, then sort each group's file list. -/
def group_files_by_logger_id (files : List PathT) : String → Option (List PathT) :=
  fun k => (groupRaw files (fun _ => none) k).map (sortLe pathLeB)

/-! ### Metadata loaders

A CSV row from `csv.DictReader` is an association list of column name to
string value; `row.get(k)` is `rowGet`, Python truthiness of an optional
string is `truthy`. -/

abbrev Row := List (String × String)

def rowGet (r : Row) (k : String) : Option String := r.lookup k

def truthy (o : Option String) : Bool :=
  match o with
  | some s => decide (s ≠ "")
  | none => false

/-- Python dict assignment `row[k] = v`: replace in place, else append. -/
def rowSetS (r : Row) (k v : String) : Row :=
  if (r.lookup k).isSome then r.map (fun p => if p.1 = k then (k, v) else p)
  else r ++ [(k, v)]

namespace PlotGT

/-- Model of `load_metadata` of `plot_ground_temperature.py`: rows keyed by their
stripped `ID` column, later rows overwriting earlier ones; no other check. -/
def load_metadata (rows : List Row) : String → Option Row :=
  rows.foldl
    (fun m row =>
      let id := pyStrip ((rowGet row "ID").getD "")
      if id ≠ "" then (fun k => if k = id then some row else m k) else m)
    (fun _ => none)

/-- The `all_metadata.update(site_metadata)` accumulation of
`load_all_metadata`, over the tables in load order. -/
def load_all_from (acc : String → Option Row) : List (List Row) → String → Option Row
  | [] => acc
  | t :: ts =>
    load_all_from
      (fun k =>
        match load_metadata t k with
        | some v => some v
        | none => acc k)
      ts

/-- Model of `load_all_metadata` of `plot_ground_temperature.py` on the sequence of
metadata tables it discovers (directory tables in glob order, then the
legacy file). -/
def load_all_metadata (tables : List (List Row)) : String → Option Row :=
  load_all_from (fun _ => none) tables

end PlotGT

namespace IMap

/-- Values stored in a normalized row: `LAT`/`LON` become floats, the rest
stay strings. -/
inductive Val where
  | s (v : String)
  | q (v : ℚ)
deriving DecidableEq, Repr

abbrev NRow := List (String × Val)

/-- Python dict assignment on a normalized row. -/
def setKV (r : NRow) (k : String) (v : Val) : NRow :=
  if (r.lookup k).isSome then r.map (fun p => if p.1 = k then (k, v) else p)
  else r ++ [(k, v)]

/-- The `elif row.get("ID")` fallback of the identifier resolution. -/
def resolveFallback (row : Row) : String × Row :=
  (if truthy (rowGet row "ID") then pyStrip ((rowGet row "ID").getD "") else "", row)

/-- Identifier resolution of `interactive_map.load_metadata`: prefer a
present, truthy `BLE-ID/Geoprecision` column (also storing a truthy `ID`
under `WP_ID`), else fall back to `ID`.  Returns the id and the possibly
mutated row. -/
def resolveId (row : Row) : String × Row :=
  match rowGet row "BLE-ID/Geoprecision" with
  | some b =>
    if b ≠ "" then
      (pyStrip b,
       if truthy (rowGet row "ID") then rowSetS row "WP_ID" ((rowGet row "ID").getD "")
       else row)
    else resolveFallback row
  | none => resolveFallback row

/-- Model of the chain of get calls falling back over aliased coordinate columns. -/
def firstTruthy (a b : Option String) : String :=
  if truthy a then a.getD "" else if truthy b then b.getD "" else ""

/-- Construction of `normalized_row`: copy of the (mutated) row with `ID`, `LAT`, `LON`
overwritten and `ELE` defaulted from `Altitude`. -/
def normRow (row1 : Row) (lid : String) (la lo : ℚ) : NRow :=
  let n0 : NRow := row1.map (fun p => (p.1, Val.s p.2))
  let n1 := setKV n0 "ID" (Val.s lid)
  let n2 := setKV n1 "LAT" (Val.q la)
  let n3 := setKV n2 "LON" (Val.q lo)
  if (rowGet row1 "Altitude").isSome && !(truthy (rowGet row1 "ELE")) then
    setKV n3 "ELE" (Val.s ((rowGet row1 "Altitude").getD ""))
  else n3

/-- One row of `interactive_map.load_metadata`: `none` when the row is
dropped (missing/falsy coordinate or id, id `"-"`, unparsable or
out-of-range coordinates). -/
def rowNorm? (row : Row) : Option NRow :=
  let r := resolveId row
  let lat_val := firstTruthy (rowGet row "LAT") (rowGet row "Y")
  let lon_val := firstTruthy (rowGet row "LON") (rowGet row "X")
  if lat_val ≠ "" ∧ lon_val ≠ "" ∧ r.1 ≠ "" ∧ r.1 ≠ "-" then
    match pyFloat? lat_val, pyFloat? lon_val with
    | some la, some lo =>
      if -90 ≤ la ∧ la ≤ 90 ∧ -180 ≤ lo ∧ lo ≤ 180 then some (normRow r.2 r.1 la lo)
      else none
    | _, _ => none
  else none

/-- Model of `load_metadata` of `interactive_map.py`: the retained normalized rows,
in file order, as a list. -/
def load_metadata (rows : List Row) : List NRow := rows.filterMap rowNorm?

/-- Model of `load_all_metadata` of `interactive_map.py`: the extend calls
over the tables in load order. -/
def load_all_metadata (tables : List (List Row)) : List NRow :=
  tables.foldl (fun acc t => acc ++ load_metadata t) []

end IMap

/-! ### Lemmas about the stable sort -/

theorem sinsert_perm (p : Sample) (l : List Sample) :
    List.Perm (sinsert p l) (p :: l) := by
  induction l with
  | nil => exact List.Perm.refl _
  | cons q qs ih =>
    simp only [sinsert]
    split
    · exact List.Perm.refl _
    · exact (ih.cons q).trans (List.Perm.swap p q qs)

theorem ssort_perm (l : List Sample) : List.Perm (ssort l) l := by
  induction l with
  | nil => exact List.Perm.refl _
  | cons p ps ih => exact (sinsert_perm p (ssort ps)).trans (ih.cons p)

theorem pairwise_sinsert (p : Sample) {l : List Sample}
    (h : l.Pairwise (fun a b => a.1 ≤ b.1)) :
    (sinsert p l).Pairwise (fun a b => a.1 ≤ b.1) := by
  induction l with
  | nil => simp [sinsert]
  | cons q qs ih =>
    rcases List.pairwise_cons.mp h with ⟨hq, hqs⟩
    by_cases hle : p.1 ≤ q.1
    · simp only [sinsert, if_pos hle]
      refine List.pairwise_cons.mpr ⟨?_, h⟩
      intro b hb
      rcases List.mem_cons.mp hb with rfl | hb
      · exact hle
      · exact le_trans hle (hq b hb)
    · simp only [sinsert, if_neg hle]
      refine List.pairwise_cons.mpr ⟨?_, ih hqs⟩
      intro b hb
      rcases List.mem_cons.mp ((sinsert_perm p qs).mem_iff.mp hb) with rfl | hb
      · exact le_of_lt (lt_of_not_le hle)
      · exact hq b hb

theorem ssort_sorted (l : List Sample) :
    (ssort l).Pairwise (fun a b => a.1 ≤ b.1) := by
  induction l with
  | nil => simp [ssort]
  | cons p ps ih => exact pairwise_sinsert p ih

/-! ### Lemmas about the duplicate collapse -/

theorem mem_collapse_gt :
    ∀ (l : List Sample) (t : Nat), l.Pairwise (fun a b => a.1 ≤ b.1) →
      (∀ q ∈ l, t ≤ q.1) → ∀ r ∈ collapse (some t) l, t < r.1 := by
  intro l
  induction l with
  | nil => intro t _ _ r hr; simp [collapse] at hr
  | cons q qs ih =>
    intro t hs hge r hr
    rcases List.pairwise_cons.mp hs with ⟨hq, hqs⟩
    simp only [collapse] at hr
    by_cases heq : some q.1 = some t
    · rw [if_pos heq] at hr
      have hq1 : q.1 = t := Option.some.inj heq
      exact ih t hqs (fun x hx => hq1 ▸ hq x hx) r hr
    · rw [if_neg heq] at hr
      rcases List.mem_cons.mp hr with rfl | hr
      · exact lt_of_le_of_ne (hge r (List.mem_cons_self r qs))
          (fun h => heq (by rw [h]))
      · exact lt_of_le_of_lt (hge q (List.mem_cons_self q qs)) (ih q.1 hqs hq r hr)

theorem collapse_pairwise_some :
    ∀ (l : List Sample) (t : Nat), l.Pairwise (fun a b => a.1 ≤ b.1) →
      (∀ q ∈ l, t ≤ q.1) →
      (collapse (some t) l).Pairwise (fun a b => a.1 < b.1) := by
  intro l
  induction l with
  | nil => intro t _ _; simp [collapse]
  | cons q qs ih =>
    intro t hs hge
    rcases List.pairwise_cons.mp hs with ⟨hq, hqs⟩
    simp only [collapse]
    by_cases heq : some q.1 = some t
    · rw [if_pos heq]
      have hq1 : q.1 = t := Option.some.inj heq
      exact ih t hqs (fun x hx => hq1 ▸ hq x hx)
    · rw [if_neg heq]
      exact List.pairwise_cons.mpr
        ⟨fun b hb => mem_collapse_gt qs q.1 hqs hq b hb, ih q.1 hqs hq⟩

theorem collapse_pairwise_none (l : List Sample)
    (h : l.Pairwise (fun a b => a.1 ≤ b.1)) :
    (collapse none l).Pairwise (fun a b => a.1 < b.1) := by
  cases l with
  | nil => simp [collapse]
  | cons q qs =>
    rcases List.pairwise_cons.mp h with ⟨hq, hqs⟩
    have hne : ¬ (some q.1 = none) := by simp
    simp only [collapse, if_neg hne]
    exact List.pairwise_cons.mpr
      ⟨fun b hb => mem_collapse_gt qs q.1 hqs hq b hb, collapse_pairwise_some qs q.1 hqs hq⟩

theorem mem_keys_collapse_some :
    ∀ (l : List Sample) (u t : Nat), t ∈ l.map Prod.fst → t ≠ u →
      t ∈ (collapse (some u) l).map Prod.fst := by
  intro l
  induction l with
  | nil => intro u t ht _; simp at ht
  | cons q qs ih =>
    intro u t ht hne
    simp only [collapse]
    by_cases heq : some q.1 = some u
    · rw [if_pos heq]
      have hq1 : q.1 = u := Option.some.inj heq
      rcases List.mem_map.mp ht with ⟨p, hp, rfl⟩
      rcases List.mem_cons.mp hp with rfl | hp
      · exact absurd hq1 hne
      · exact ih u p.1 (List.mem_map_of_mem Prod.fst hp) hne
    · rw [if_neg heq]
      by_cases hqt : t = q.1
      · subst hqt
        exact List.mem_map_of_mem Prod.fst (List.mem_cons_self q _)
      · rcases List.mem_map.mp ht with ⟨p, hp, rfl⟩
        rcases List.mem_cons.mp hp with rfl | hp
        · exact absurd rfl hqt
        · exact List.mem_cons_of_mem _
            (ih q.1 p.1 (List.mem_map_of_mem Prod.fst hp) hqt)

theorem mem_keys_collapse_none (l : List Sample) (t : Nat)
    (h : t ∈ l.map Prod.fst) : t ∈ (collapse none l).map Prod.fst := by
  cases l with
  | nil => simp at h
  | cons q qs =>
    have hne : ¬ (some q.1 = none) := by simp
    simp only [collapse, if_neg hne]
    by_cases hqt : t = q.1
    · subst hqt
      exact List.mem_map_of_mem Prod.fst (List.mem_cons_self q _)
    · rcases List.mem_map.mp h with ⟨p, hp, rfl⟩
      rcases List.mem_cons.mp hp with rfl | hp
      · exact absurd rfl hqt
      · exact List.mem_cons_of_mem _
          (mem_keys_collapse_some qs q.1 p.1 (List.mem_map_of_mem Prod.fst hp) hqt)

theorem collapse_sublist : ∀ (last : Option Nat) (l : List Sample),
    (collapse last l).Sublist l := by
  intro last l
  induction l generalizing last with
  | nil => simp [collapse]
  | cons q qs ih =>
    simp only [collapse]
    split
    · exact (ih last).cons q
    · exact (ih (some q.1)).cons₂ q

/-! ### First-occurrence lemmas -/

theorem firstAt_cons (q : Sample) (qs : List Sample) (t : Nat) :
    firstAt t (q :: qs) = if q.1 = t then some q.2 else firstAt t qs := by
  simp only [firstAt, List.find?_cons]
  by_cases h : q.1 = t
  · simp [h]
  · simp [h]

theorem firstAt_sinsert (p : Sample) (l : List Sample) (t : Nat) :
    firstAt t (sinsert p l) = if p.1 = t then some p.2 else firstAt t l := by
  induction l with
  | nil => simp [sinsert, firstAt_cons]
  | cons q qs ih =>
    by_cases hle : p.1 ≤ q.1
    · simp only [sinsert, if_pos hle, firstAt_cons]
    · simp only [sinsert, if_neg hle, firstAt_cons, ih]
      by_cases hq : q.1 = t
      · by_cases hp : p.1 = t
        · exact absurd (le_of_eq (hp.trans hq.symm)) hle
        · simp [hq, hp]
      · simp [hq]

theorem firstAt_ssort (l : List Sample) (t : Nat) :
    firstAt t (ssort l) = firstAt t l := by
  induction l with
  | nil => rfl
  | cons p ps ih => rw [ssort, firstAt_sinsert, ih, firstAt_cons]

theorem collapse_firstAt :
    ∀ (l : List Sample) (t : Nat), l.Pairwise (fun a b => a.1 ≤ b.1) →
      (∀ q ∈ l, t ≤ q.1) →
      ∀ p ∈ collapse (some t) l, p.1 ≠ t ∧ firstAt p.1 l = some p.2 := by
  intro l
  induction l with
  | nil => intro t _ _ p hp; simp [collapse] at hp
  | cons q qs ih =>
    intro t hs hge p hp
    rcases List.pairwise_cons.mp hs with ⟨hq, hqs⟩
    simp only [collapse] at hp
    by_cases heq : some q.1 = some t
    · rw [if_pos heq] at hp
      have hq1 : q.1 = t := Option.some.inj heq
      rcases ih t hqs (fun x hx => hq1 ▸ hq x hx) p hp with ⟨hne, hfind⟩
      refine ⟨hne, ?_⟩
      have hcond : ¬ (q.1 = p.1) := fun h2 => hne (h2 ▸ hq1)
      rw [firstAt_cons, if_neg hcond]
      exact hfind
    · rw [if_neg heq] at hp
      have hqt : q.1 ≠ t := fun h => heq (by rw [h])
      rcases List.mem_cons.mp hp with rfl | hp
      · exact ⟨hqt, by rw [firstAt_cons, if_pos rfl]⟩
      · rcases ih q.1 hqs hq p hp with ⟨hne, hfind⟩
        have hgt : q.1 < p.1 := mem_collapse_gt qs q.1 hqs hq p hp
        refine ⟨?_, ?_⟩
        · exact (lt_of_le_of_lt (hge q (List.mem_cons_self q qs)) hgt).ne'
        · rw [firstAt_cons, if_neg (fun h => hne h.symm)]
          exact hfind

theorem collapse_firstAt_none (l : List Sample)
    (h : l.Pairwise (fun a b => a.1 ≤ b.1)) :
    ∀ p ∈ collapse none l, firstAt p.1 l = some p.2 := by
  cases l with
  | nil => intro p hp; simp [collapse] at hp
  | cons q qs =>
    intro p hp
    rcases List.pairwise_cons.mp h with ⟨hq, hqs⟩
    have hne : ¬ (some q.1 = none) := by simp
    simp only [collapse, if_neg hne] at hp
    rcases List.mem_cons.mp hp with rfl | hp
    · rw [firstAt_cons, if_pos rfl]
    · rcases collapse_firstAt qs q.1 hqs hq p hp with ⟨hne', hfind⟩
      rw [firstAt_cons, if_neg (fun h2 => hne' h2.symm)]
      exact hfind

/-! ### Lemmas about `mergeSeries` -/

theorem mergeSeries_pairwise (l : List Sample) :
    (mergeSeries l).Pairwise (fun a b => a.1 < b.1) := by
  unfold mergeSeries
  split
  · simp
  · exact collapse_pairwise_none _ (ssort_sorted l)

theorem mergeSeries_firstAt (l : List Sample) :
    ∀ p ∈ mergeSeries l, firstAt p.1 l = some p.2 := by
  unfold mergeSeries
  split
  · intro p hp; simp at hp
  · intro p hp
    have := collapse_firstAt_none (ssort l) (ssort_sorted l) p hp
    rwa [firstAt_ssort] at this

theorem mergeSeries_keys (l : List Sample) (t : Nat) :
    t ∈ l.map Prod.fst ↔ t ∈ (mergeSeries l).map Prod.fst := by
  unfold mergeSeries
  split
  · subst l; simp
  · constructor
    · intro h
      refine mem_keys_collapse_none (ssort l) t ?_
      exact ((ssort_perm l).map Prod.fst).mem_iff.mpr h
    · intro h
      have h1 : t ∈ (ssort l).map Prod.fst :=
        ((collapse_sublist none (ssort l)).map Prod.fst).mem h
      exact ((ssort_perm l).map Prod.fst).mem_iff.mp h1

theorem sinsert_of_le {p : Sample} {l : List Sample} (h : ∀ q ∈ l, p.1 ≤ q.1) :
    sinsert p l = p :: l := by
  cases l with
  | nil => rfl
  | cons q qs => simp [sinsert, h q (List.mem_cons_self q qs)]

theorem ssort_of_sorted {l : List Sample}
    (h : l.Pairwise (fun a b => a.1 ≤ b.1)) : ssort l = l := by
  induction l with
  | nil => rfl
  | cons p ps ih =>
    rcases List.pairwise_cons.mp h with ⟨hp, hps⟩
    rw [ssort, ih hps, sinsert_of_le hp]

theorem collapse_of_strict :
    ∀ (l : List Sample) (last : Option Nat), l.Pairwise (fun a b => a.1 < b.1) →
      (∀ t, last = some t → ∀ p ∈ l, t < p.1) → collapse last l = l := by
  intro l
  induction l with
  | nil => intro last _ _; rfl
  | cons q qs ih =>
    intro last hs hlast
    rcases List.pairwise_cons.mp hs with ⟨hq, hqs⟩
    have hne : ¬ (some q.1 = last) := by
      intro heq
      cases last with
      | none => exact Option.noConfusion heq
      | some t =>
        have := hlast t rfl q (List.mem_cons_self q qs)
        exact absurd (Option.some.inj heq) (ne_of_gt this)
    simp only [collapse, if_neg hne]
    rw [ih (some q.1) hqs (fun t ht p hp => Option.some.inj ht ▸ hq p hp)]

theorem mergeSeries_of_strict {l : List Sample}
    (h : l.Pairwise (fun a b => a.1 < b.1)) : mergeSeries l = l := by
  unfold mergeSeries
  split
  · next heq => exact heq.symm
  · have hle : l.Pairwise (fun a b => a.1 ≤ b.1) := h.imp le_of_lt
    rw [ssort_of_sorted hle, collapse_of_strict l none h (fun t ht => Option.noConfusion ht)]

/-! ### Claim theorems: series merger -/

/-- C1: merging a logger file group concatenates all parsed
`(timestamp, temperature)` pairs and stable-sorts them by timestamp, then
keeps exactly the first sample of each distinct timestamp: the merged
series is strictly increasing in timestamp, its timestamps are exactly the
timestamps occurring in the concatenation, each surviving sample's value is
the first value carried by its timestamp in concatenation order, and the
two-file example `[t1,t2] + [t2,t3]` yields exactly `[t1,t2,t3]`. -/
theorem c1_merger_sort_dedup :
    (∀ groups : List (List Sample),
      ((mergeSeries groups.flatten).Pairwise (fun a b => a.1 < b.1)) ∧
      (∀ t : Nat,
        t ∈ groups.flatten.map Prod.fst ↔ t ∈ (mergeSeries groups.flatten).map Prod.fst) ∧
      (∀ p ∈ mergeSeries groups.flatten, firstAt p.1 groups.flatten = some p.2)) ∧
    concatenate_timeseries [[(1, (10 : ℚ)), (2, 20)], [(2, (30 : ℚ)), (3, 40)]] =
      ([1, 2, 3], [10, 20, 40]) := by
  refine ⟨?_, by decide⟩
  intro groups
  exact ⟨mergeSeries_pairwise _, fun t => mergeSeries_keys _ t, mergeSeries_firstAt _⟩

theorem c1_merger_sort_dedup_witness :
    firstAt 2 ([[(1, (10 : ℚ)), (2, 20)], [(2, (30 : ℚ)), (3, 40)]] :
      List (List Sample)).flatten = some 20 :=
  (c1_merger_sort_dedup.1 [[(1, 10), (2, 20)], [(2, 30), (3, 40)]]).2.2 (2, 20) (by decide)

/-- C8: the sort-and-collapse step of the merger is idempotent: a list
that is already strictly increasing in timestamp is returned unchanged,
and applying the procedure twice equals applying it once. -/
theorem c8_merger_idempotent :
    (∀ l : List Sample, l.Pairwise (fun a b => a.1 < b.1) → mergeSeries l = l) ∧
    (∀ l : List Sample, mergeSeries (mergeSeries l) = mergeSeries l) :=
  ⟨fun _ h => mergeSeries_of_strict h,
   fun l => mergeSeries_of_strict (mergeSeries_pairwise l)⟩

theorem c8_merger_idempotent_witness :
    mergeSeries [((1 : Nat), (5 : ℚ)), (3, 7)] = [(1, 5), (3, 7)] :=
  c8_merger_idempotent.1 _ (by decide)

/-! ### Claim theorems: row parsers -/

theorem sangvorLoop_spec (skip : Nat) :
    ∀ (lines : List String) (n : Nat),
      ∃ ps : List Sample,
        sangvorLoop skip n lines = (ps.map Prod.fst, ps.map Prod.snd) ∧
        ∀ p ∈ ps, ∃ line ∈ lines, sangvorLine? line = some p := by
  intro lines
  induction lines with
  | nil => intro n; exact ⟨[], rfl, by simp⟩
  | cons l ls ih =>
    intro n
    rcases ih (n + 1) with ⟨ps, hps, hmem⟩
    by_cases hskip : n ≤ skip
    · refine ⟨ps, ?_, ?_⟩
      · simp [sangvorLoop, hskip, hps]
      · intro p hp
        rcases hmem p hp with ⟨line, hl, he⟩
        exact ⟨line, List.mem_cons_of_mem _ hl, he⟩
    · cases hline : sangvorLine? l with
      | some p =>
        refine ⟨p :: ps, ?_, ?_⟩
        · simp [sangvorLoop, hskip, hline, hps]
        · intro x hx
          rcases List.mem_cons.mp hx with rfl | hx
          · exact ⟨l, List.mem_cons_self _ _, hline⟩
          · rcases hmem x hx with ⟨line, hl, he⟩
            exact ⟨line, List.mem_cons_of_mem _ hl, he⟩
      | none =>
        refine ⟨ps, ?_, ?_⟩
        · simp [sangvorLoop, hskip, hline, hps]
        · intro p hp
          rcases hmem p hp with ⟨line, hl, he⟩
          exact ⟨line, List.mem_cons_of_mem _ hl, he⟩

/-- C10: the sangvor parser returns equally long timestamp and temperature
lists that are the two projections of a single list of per-line pairs, and
every pair comes from one data line on which both fields parsed (both
parses happen before either append in the source, so no partially parsed
line contributes to either output). -/
theorem c10_sangvor_parser_aligned :
    ∀ (lines : List String) (skip : Nat),
      (parse_sangvor_file lines skip).1.length = (parse_sangvor_file lines skip).2.length ∧
      ∃ ps : List Sample,
        parse_sangvor_file lines skip = (ps.map Prod.fst, ps.map Prod.snd) ∧
        ∀ p ∈ ps, ∃ line ∈ lines, sangvorLine? line = some p := by
  intro lines skip
  rcases sangvorLoop_spec skip lines 1 with ⟨ps, hps, hmem⟩
  constructor
  · unfold parse_sangvor_file
    rw [hps]
    simp
  · exact ⟨ps, by unfold parse_sangvor_file; rw [hps], hmem⟩

theorem c10_sangvor_parser_aligned_witness :
    parse_sangvor_file ["01.01.2020 00:00:00;5.0"] 0 = ([63739872000], [(5 : ℚ)]) ∧
    (parse_sangvor_file ["01.01.2020 00:00:00;5.0"] 0).1.length =
      (parse_sangvor_file ["01.01.2020 00:00:00;5.0"] 0).2.length :=
  ⟨by with_unfolding_all rfl, (c10_sangvor_parser_aligned ["01.01.2020 00:00:00;5.0"] 0).1⟩

/-- C2 (code-bug evidence): a fanmountains data row whose timestamp parses
but whose temperature does not still contributes its timestamp (the source
appends the timestamp before parsing the temperature), so the outputs are
not the aligned pairs of the fully valid rows: here the surviving pair is
the bad row's midnight timestamp with the good row's temperature, while the
claim expects the good row's 01:00 timestamp. -/
theorem c2_fanmountains_orphan_timestamp :
    parse_fanmountains_file
        [["1", "01.01.2020 00:00:00", "abc"], ["2", "01.01.2020 01:00:00", "5.0"]] 0 =
      ([63739872000], [(5 : ℚ)]) ∧
    pyStrptimeDMY? "01.01.2020 00:00:00" = some ⟨2020, 1, 1, 0, 0, 0⟩ ∧
    pyFloat? "abc" = none ∧
    dtSecs ⟨2020, 1, 1, 0, 0, 0⟩ = 63739872000 ∧
    dtSecs ⟨2020, 1, 1, 1, 0, 0⟩ = 63739875600 :=
  ⟨by with_unfolding_all rfl, by decide, by with_unfolding_all rfl, by decide, by decide⟩

/-! ### Claim theorems: offset rewriter -/

/-- C3 (code-bug evidence): every group of the offset regex is optional, so
`re.match` always succeeds and the `raise ValueError` branch is
unreachable: `parse_offset` returns a `timedelta` for every string, with
`timedelta(0)` for fully malformed input. -/
theorem c3_parse_offset_never_raises :
    (∀ s : String, ∃ n : Nat, parse_offset s = Except.ok n) ∧
    parse_offset "garbage" = Except.ok 0 ∧
    parse_offset "438d 3h 29min 29sec" = Except.ok 37855769 := by
  refine ⟨?_, rfl, rfl⟩
  intro s
  exact ⟨_, rfl⟩

theorem splitOnChar_ne_nil (c : Char) (l : List Char) : splitOnChar c l ≠ [] := by
  cases l with
  | nil => simp [splitOnChar]
  | cons a as =>
    simp only [splitOnChar]
    by_cases hac : a = c
    · simp [hac]
    · rw [if_neg hac]
      cases h : splitOnChar c as with
      | nil => simp
      | cons g gs => simp

theorem splitOnChar_two (c : Char) :
    ∀ l : List Char, l.contains c = true → 2 ≤ (splitOnChar c l).length := by
  intro l
  induction l with
  | nil => intro h; simp [List.contains] at h
  | cons a as ih =>
    intro h
    simp only [splitOnChar]
    by_cases hac : a = c
    · rw [if_pos hac, List.length_cons]
      have h1 : 0 < (splitOnChar c as).length :=
        List.length_pos.mpr (splitOnChar_ne_nil c as)
      omega
    · rw [if_neg hac]
      have h2 : as.contains c = true := by
        rw [List.contains_cons] at h
        rcases (Bool.or_eq_true _ _).mp h with h | h
        · exact absurd (beq_iff_eq.mp h).symm hac
        · exact h
      cases hs : splitOnChar c as with
      | nil => exact absurd hs (splitOnChar_ne_nil c as)
      | cons g gs =>
        have h3 := ih h2
        rw [hs] at h3
        simp only [hs, List.length_cons] at h3 ⊢
        omega

theorem processLines_eq (off : Nat) :
    ∀ (ls : List String) (i : Nat),
      processLines off i ls =
        ls.take (SKIP_LINES + 1 - i) ++ (ls.drop (SKIP_LINES + 1 - i)).map (shiftLine off) := by
  intro ls
  induction ls with
  | nil => intro i; simp [processLines]
  | cons l ls ih =>
    intro i
    by_cases hle : i ≤ SKIP_LINES
    · have h1 : SKIP_LINES + 1 - i = (SKIP_LINES + 1 - (i + 1)) + 1 := by omega
      rw [processLines, if_pos hle, ih (i + 1), h1, List.take_succ_cons,
        List.drop_succ_cons, List.cons_append]
    · have h1 : SKIP_LINES + 1 - i = 0 := by omega
      have h2 : SKIP_LINES + 1 - (i + 1) = 0 := by omega
      rw [processLines, if_neg hle, ih (i + 1), h1, h2]
      simp

/-- C9 (amended): the offset rewriter copies the first 22 lines verbatim
regardless of content and maps every later line independently; a line whose
first semicolon field does not parse as `DD.MM.YYYY HH:MM:SS` passes
through unchanged; a line whose first field parses — provided the shifted
timestamp still fits `datetime`'s year range — is rewritten as the shifted
reformatted timestamp followed by the remaining fields unchanged; and
offset `"1d 2h"` maps `"01.01.2020 00:00:00;5.0"` to
`"02.01.2020 02:00:00;5.0"`. -/
theorem c9_offset_rewriter :
    (∀ (off : Nat) (lines : List String),
      process_file off lines = lines.take 22 ++ (lines.drop 22).map (shiftLine off)) ∧
    (∀ (off : Nat) (line : String),
      pyStrptimeDMY? (pyStrip ((pySplit ';' line).headD "")) = none →
      shiftLine off line = line) ∧
    (∀ (off : Nat) (line : String) (dt : DT),
      line.toList.contains ';' = true →
      pyStrptimeDMY? (pyStrip ((pySplit ';' line).headD "")) = some dt →
      (secsToDT (dtSecs dt + off)).year ≤ 9999 →
      shiftLine off line =
        fmtDT (secsToDT (dtSecs dt + off)) ++ ";" ++
          String.intercalate ";" (pySplit ';' line).tail) ∧
    parse_offset "1d 2h" = Except.ok 93600 ∧
    shiftLine 93600 "01.01.2020 00:00:00;5.0" = "02.01.2020 02:00:00;5.0" := by
  refine ⟨?_, ?_, ?_, rfl, by decide⟩
  · intro off lines
    have := processLines_eq off lines 1
    simpa [process_file, SKIP_LINES] using this
  · intro off line hnone
    simp only [shiftLine]
    split
    · rfl
    · split
      · rfl
      · simp only [hnone]
  · intro off line dt hsemi hparse hyear
    have hne : ¬ (line = "" ∨ ¬ (line.toList.contains ';')) := by
      rintro (h | h)
      · subst h; simp [List.contains] at hsemi
      · exact h hsemi
    have hlen : ¬ ((pySplit ';' line).length < 2) := by
      have := splitOnChar_two ';' line.toList hsemi
      simp only [pySplit, List.length_map]
      omega
    simp only [shiftLine, if_neg hne, if_neg hlen, hparse, if_neg (by omega : ¬ 9999 < (secsToDT (dtSecs dt + off)).year)]

theorem c9_offset_rewriter_witness :
    shiftLine 93600 "junk" = "junk" ∧
    shiftLine 93600 "01.01.2020 00:00:00;5.0" =
      fmtDT (secsToDT (dtSecs ⟨2020, 1, 1, 0, 0, 0⟩ + 93600)) ++ ";" ++
        String.intercalate ";" (pySplit ';' "01.01.2020 00:00:00;5.0").tail :=
  ⟨c9_offset_rewriter.2.1 93600 "junk" (by decide),
   c9_offset_rewriter.2.2.1 93600 "01.01.2020 00:00:00;5.0" ⟨2020, 1, 1, 0, 0, 0⟩
     (by decide) (by decide) (by decide)⟩

/-- C9 counterexample to the unamended claim: with the parsed offset
`"8000000d"` the shift overflows `datetime`'s year range, and the data line
whose first field parses is passed through unchanged instead of being
rewritten. -/
theorem c9_offset_rewriter_counterexample :
    parse_offset "8000000d" = Except.ok 691200000000 ∧
    pyStrptimeDMY? "01.01.2020 00:00:00" = some ⟨2020, 1, 1, 0, 0, 0⟩ ∧
    shiftLine 691200000000 "01.01.2020 00:00:00;5.0" = "01.01.2020 00:00:00;5.0" :=
  ⟨rfl, by decide, by decide⟩

/-! ### Claim theorems: metadata loaders -/

theorem load_all_from_none (k : String) :
    ∀ (ts : List (List Row)) (acc : String → Option Row),
      (∀ t ∈ ts, PlotGT.load_metadata t k = none) →
      PlotGT.load_all_from acc ts k = acc k := by
  intro ts
  induction ts with
  | nil => intro acc _; rfl
  | cons t ts ih =>
    intro acc h
    have h1 := h t (List.mem_cons_self t ts)
    simp only [PlotGT.load_all_from]
    rw [ih _ (fun t2 ht2 => h t2 (List.mem_cons_of_mem _ ht2))]
    simp [h1]

theorem load_all_from_append :
    ∀ (ts1 ts2 : List (List Row)) (acc : String → Option Row),
      PlotGT.load_all_from acc (ts1 ++ ts2) =
        PlotGT.load_all_from (PlotGT.load_all_from acc ts1) ts2 := by
  intro ts1
  induction ts1 with
  | nil => intro ts2 acc; rfl
  | cons t ts ih =>
    intro ts2 acc
    exact ih ts2 (fun k =>
      match PlotGT.load_metadata t k with
      | some v => some v
      | none => acc k)

theorem imap_load_all_eq_flatten_from :
    ∀ (ts : List (List Row)) (acc : List IMap.NRow),
      ts.foldl (fun a t => a ++ IMap.load_metadata t) acc =
        acc ++ (ts.map IMap.load_metadata).flatten := by
  intro ts
  induction ts with
  | nil => intro acc; simp
  | cons t ts ih => intro acc; simp [List.foldl_cons, ih]

/-- C4 (amended): for `plot_ground_temperature.py` the claim holds: when a
later-loaded table defines a logger id, its row replaces any earlier row
for that id entirely (no field-level merge).  The loader of
`interactive_map.py`, however, returns a **list** and `extend`s it per
table, so rows from earlier tables for the same id are all retained next
to the later one, never overwritten. -/
theorem c4_metadata_last_write_wins :
    (∀ (ts1 ts2 : List (List Row)) (t : List Row) (k : String) (r : Row),
      PlotGT.load_metadata t k = some r →
      (∀ t2 ∈ ts2, PlotGT.load_metadata t2 k = none) →
      PlotGT.load_all_metadata (ts1 ++ t :: ts2) k = some r) ∧
    (∀ tables : List (List Row),
      IMap.load_all_metadata tables = (tables.map IMap.load_metadata).flatten) := by
  constructor
  · intro ts1 ts2 t k r hsome hnone
    unfold PlotGT.load_all_metadata
    rw [load_all_from_append ts1 (t :: ts2)]
    simp only [PlotGT.load_all_from]
    rw [load_all_from_none k ts2 _ hnone]
    simp [hsome]
  · intro tables
    exact imap_load_all_eq_flatten_from tables []

theorem c4_metadata_last_write_wins_witness :
    PlotGT.load_all_metadata
        [[[("ID", "A1"), ("LAT", "40")]], [[("ID", "A1"), ("LAT", "41")]]] "A1" =
      some [("ID", "A1"), ("LAT", "41")] :=
  c4_metadata_last_write_wins.1 [[[("ID", "A1"), ("LAT", "40")]]] []
    [[("ID", "A1"), ("LAT", "41")]] "A1" [("ID", "A1"), ("LAT", "41")]
    (by decide) (by intro t2 ht2; simp at ht2)

/-- C4 counterexample to the unamended claim: two tables defining logger id
`"A1"` loaded by `interactive_map.load_all_metadata` yield **both** rows in
the result — the earlier table's row is retained, not replaced. -/
theorem c4_counterexample_interactive_map :
    IMap.load_all_metadata
        [[[("ID", "A1"), ("LAT", "40"), ("LON", "70")]],
         [[("ID", "A1"), ("LAT", "41"), ("LON", "71")]]] =
      [[("ID", IMap.Val.s "A1"), ("LAT", IMap.Val.q 40), ("LON", IMap.Val.q 70)],
       [("ID", IMap.Val.s "A1"), ("LAT", IMap.Val.q 41), ("LON", IMap.Val.q 71)]] := by
  with_unfolding_all rfl

theorem pyFloat_empty : pyFloat? "" = none := rfl

/-- C5 (amended): for `interactive_map.py`'s loader a metadata row is
retained iff its resolved identifier is non-empty and not `"-"` and both
resolved coordinate strings parse as floats within `[-90, 90]` and
`[-180, 180]`; rows with `LAT=91` or `ID="-"` are dropped there.  The
loader of `plot_ground_temperature.py` keys rows by a non-empty stripped
`ID` only and performs **no** coordinate or `"-"` check. -/
theorem c5_metadata_row_filter :
    (∀ row : Row,
      (IMap.rowNorm? row).isSome = true ↔
        ((IMap.resolveId row).1 ≠ "" ∧ (IMap.resolveId row).1 ≠ "-" ∧
         ∃ la lo : ℚ,
           pyFloat? (IMap.firstTruthy (rowGet row "LAT") (rowGet row "Y")) = some la ∧
           pyFloat? (IMap.firstTruthy (rowGet row "LON") (rowGet row "X")) = some lo ∧
           -90 ≤ la ∧ la ≤ 90 ∧ -180 ≤ lo ∧ lo ≤ 180)) ∧
    IMap.load_metadata [[("ID", "L1"), ("LAT", "91"), ("LON", "70")]] = [] ∧
    IMap.load_metadata [[("ID", "-"), ("LAT", "40"), ("LON", "70")]] = [] := by
  refine ⟨?_, by with_unfolding_all rfl, by with_unfolding_all rfl⟩
  intro row
  constructor
  · intro h
    simp only [IMap.rowNorm?] at h
    split at h
    · rename_i hc
      obtain ⟨h1, h2, h3, h4⟩ := hc
      cases hla : pyFloat? (IMap.firstTruthy (rowGet row "LAT") (rowGet row "Y")) with
      | none => rw [hla] at h; simp at h
      | some la =>
        cases hlo : pyFloat? (IMap.firstTruthy (rowGet row "LON") (rowGet row "X")) with
        | none => rw [hla, hlo] at h; simp at h
        | some lo =>
          rw [hla, hlo] at h
          simp only at h
          split at h
          · rename_i hr
            exact ⟨h3, h4, la, lo, rfl, rfl, hr.1, hr.2.1, hr.2.2.1, hr.2.2.2⟩
          · simp at h
    · simp at h
  · rintro ⟨h3, h4, la, lo, hla, hlo, r1, r2, r3, r4⟩
    have h1 : IMap.firstTruthy (rowGet row "LAT") (rowGet row "Y") ≠ "" := by
      intro he; rw [he, pyFloat_empty] at hla; exact Option.noConfusion hla
    have h2 : IMap.firstTruthy (rowGet row "LON") (rowGet row "X") ≠ "" := by
      intro he; rw [he, pyFloat_empty] at hlo; exact Option.noConfusion hlo
    simp only [IMap.rowNorm?]
    rw [if_pos ⟨h1, h2, h3, h4⟩, hla, hlo]
    simp only
    rw [if_pos ⟨r1, r2, r3, r4⟩]
    simp

/-- C5 counterexample to the unamended claim: the metadata loader of
`plot_ground_temperature.py` retains a row whose `ID` is `"-"` and whose
latitude is the out-of-range `91`. -/
theorem c5_counterexample_plot_loader :
    PlotGT.load_metadata [[("ID", "-"), ("LAT", "91"), ("LON", "70")]] "-" =
      some [("ID", "-"), ("LAT", "91"), ("LON", "70")] := by decide

/-- C6 (amended): for `interactive_map.py`'s loader the identifier comes
from a present, truthy `BLE-ID/Geoprecision` column, in which case a truthy
`ID` value is additionally stored on the row under `WP_ID`; otherwise the
stripped `ID` column is used; the `X1`/`WP5` example normalizes to a row
carrying `ID = "X1"` and `WP_ID = "WP5"`.  The loader of
`plot_ground_temperature.py` never consults `BLE-ID/Geoprecision`: the same
row is keyed by `"WP5"` with no waypoint attribute. -/
theorem c6_metadata_identifier_resolution :
    (∀ (row : Row) (b : String),
      rowGet row "BLE-ID/Geoprecision" = some b → b ≠ "" →
      (IMap.resolveId row).1 = pyStrip b ∧
      (∀ i : String, rowGet row "ID" = some i → i ≠ "" →
        (IMap.resolveId row).2 = rowSetS row "WP_ID" i)) ∧
    (∀ row : Row,
      rowGet row "BLE-ID/Geoprecision" = none ∨
        rowGet row "BLE-ID/Geoprecision" = some "" →
      (IMap.resolveId row).1 =
        (if truthy (rowGet row "ID") then pyStrip ((rowGet row "ID").getD "") else "") ∧
      (IMap.resolveId row).2 = row) ∧
    IMap.rowNorm?
        [("BLE-ID/Geoprecision", "X1"), ("ID", "WP5"), ("LAT", "40"), ("LON", "70")] =
      some [("BLE-ID/Geoprecision", IMap.Val.s "X1"), ("ID", IMap.Val.s "X1"),
            ("LAT", IMap.Val.q 40), ("LON", IMap.Val.q 70), ("WP_ID", IMap.Val.s "WP5")] := by
  refine ⟨?_, ?_, by with_unfolding_all rfl⟩
  · intro row b hble hbne
    have hrw : IMap.resolveId row =
        (pyStrip b,
         if truthy (rowGet row "ID") then rowSetS row "WP_ID" ((rowGet row "ID").getD "")
         else row) := by
      simp [IMap.resolveId, hble, hbne]
    refine ⟨by rw [hrw], ?_⟩
    intro i hid hine
    simp [hrw, truthy, hid, hine]
  · intro row h
    have hrw : IMap.resolveId row = IMap.resolveFallback row := by
      rcases h with h | h
      · simp [IMap.resolveId, h]
      · simp [IMap.resolveId, h]
    rw [hrw]
    exact ⟨rfl, rfl⟩

theorem c6_metadata_identifier_resolution_witness :
    (IMap.resolveId [("BLE-ID/Geoprecision", "X1"), ("ID", "WP5")]).1 = pyStrip "X1" ∧
    (IMap.resolveId [("BLE-ID/Geoprecision", "X1"), ("ID", "WP5")]).2 =
      rowSetS [("BLE-ID/Geoprecision", "X1"), ("ID", "WP5")] "WP_ID" "WP5" := by
  have h := c6_metadata_identifier_resolution.1
    [("BLE-ID/Geoprecision", "X1"), ("ID", "WP5")] "X1" (by decide) (by decide)
  exact ⟨h.1, h.2 "WP5" (by decide) (by decide)⟩

/-- C6 counterexample to the unamended claim: in
`plot_ground_temperature.py` a row with `BLE-ID/Geoprecision = "X1"` and
`ID = "WP5"` is keyed by `"WP5"`, not `"X1"`. -/
theorem c6_counterexample_plot_loader :
    PlotGT.load_metadata
        [[("BLE-ID/Geoprecision", "X1"), ("ID", "WP5"), ("LAT", "40"), ("LON", "70")]]
        "X1" = none ∧
    PlotGT.load_metadata
        [[("BLE-ID/Geoprecision", "X1"), ("ID", "WP5"), ("LAT", "40"), ("LON", "70")]]
        "WP5" =
      some [("BLE-ID/Geoprecision", "X1"), ("ID", "WP5"), ("LAT", "40"), ("LON", "70")] :=
  ⟨by decide, by decide⟩

/-! ### Claim theorems: file grouper -/

theorem insertLe_perm {α : Type} (le : α → α → Bool) (x : α) :
    ∀ l : List α, List.Perm (insertLe le x l) (x :: l) := by
  intro l
  induction l with
  | nil => exact List.Perm.refl _
  | cons y ys ih =>
    simp only [insertLe]
    split
    · exact List.Perm.refl _
    · exact (ih.cons y).trans (List.Perm.swap x y ys)

theorem sortLe_perm {α : Type} (le : α → α → Bool) (l : List α) :
    List.Perm (sortLe le l) l := by
  induction l with
  | nil => exact List.Perm.refl _
  | cons x xs ih => exact (insertLe_perm le x (sortLe le xs)).trans (ih.cons x)

theorem pairwise_insertLe {α : Type} (le : α → α → Bool)
    (htot : ∀ a b, le a b = true ∨ le b a = true)
    (htrans : ∀ a b c, le a b = true → le b c = true → le a c = true) (x : α) :
    ∀ {l : List α}, l.Pairwise (fun a b => le a b = true) →
      (insertLe le x l).Pairwise (fun a b => le a b = true) := by
  intro l
  induction l with
  | nil => intro _; simp [insertLe]
  | cons y ys ih =>
    intro h
    rcases List.pairwise_cons.mp h with ⟨hy, hys⟩
    by_cases hxy : le x y = true
    · simp only [insertLe, if_pos hxy]
      refine List.pairwise_cons.mpr ⟨?_, h⟩
      intro b hb
      rcases List.mem_cons.mp hb with rfl | hb
      · exact hxy
      · exact htrans x y b hxy (hy b hb)
    · simp only [insertLe, if_neg hxy]
      refine List.pairwise_cons.mpr ⟨?_, ih hys⟩
      intro b hb
      rcases List.mem_cons.mp ((insertLe_perm le x ys).mem_iff.mp hb) with rfl | hb
      · rcases htot y b with h2 | h2
        · exact h2
        · exact absurd h2 hxy
      · exact hy b hb

theorem pairwise_sortLe {α : Type} (le : α → α → Bool)
    (htot : ∀ a b, le a b = true ∨ le b a = true)
    (htrans : ∀ a b c, le a b = true → le b c = true → le a c = true) :
    ∀ l : List α, (sortLe le l).Pairwise (fun a b => le a b = true) := by
  intro l
  induction l with
  | nil => simp [sortLe]
  | cons x xs ih => exact pairwise_insertLe le htot htrans x ih

theorem pathLeB_total : ∀ a b : PathT, pathLeB a b = true ∨ pathLeB b a = true := by
  intro a
  induction a with
  | nil => intro b; left; rfl
  | cons x xs ih =>
    intro b
    cases b with
    | nil => right; rfl
    | cons y ys =>
      rcases lt_trichotomy x y with h | h | h
      · left; simp [pathLeB, h]
      · subst h
        rcases ih ys with h2 | h2
        · left; simp [pathLeB, lt_irrefl, h2]
        · right; simp [pathLeB, lt_irrefl, h2]
      · right; simp [pathLeB, h]

theorem pathLeB_trans :
    ∀ a b c : PathT, pathLeB a b = true → pathLeB b c = true → pathLeB a c = true := by
  intro a
  induction a with
  | nil => intro b c _ _; rfl
  | cons x xs ih =>
    intro b c hab hbc
    cases b with
    | nil => simp [pathLeB] at hab
    | cons y ys =>
      cases c with
      | nil => simp [pathLeB] at hbc
      | cons z zs =>
        simp only [pathLeB] at hab hbc ⊢
        by_cases hxy : x < y
        · by_cases hyz : y < z
          · rw [if_pos (lt_trans hxy hyz)]
          · by_cases hzy : z < y
            · rw [if_neg hyz, if_pos hzy] at hbc
              exact absurd hbc (by simp)
            · have heq : y = z := le_antisymm (not_lt.mp hzy) (not_lt.mp hyz)
              subst heq
              rw [if_pos hxy]
        · by_cases hyx : y < x
          · rw [if_neg hxy, if_pos hyx] at hab
            exact absurd hab (by simp)
          · have heq : x = y := le_antisymm (not_lt.mp hyx) (not_lt.mp hxy)
            subst heq
            rw [if_neg hxy, if_neg hyx] at hab
            by_cases hyz : x < z
            · rw [if_pos hyz]
            · by_cases hzy : z < x
              · rw [if_neg hyz, if_pos hzy] at hbc
                exact absurd hbc (by simp)
              · rw [if_neg hyz, if_neg hzy] at hbc ⊢
                exact ih ys zs hab hbc

theorem mem_groupStep (m : String → Option (List PathT)) (g : PathT) (k : String)
    (f : PathT) :
    (f ∈ (groupStep m g k).getD []) ↔
      (f ∈ (m k).getD [] ∨
        (f = g ∧ isMetadataFile g = false ∧ loggerIdOf g = k ∧ k ≠ "")) := by
  unfold groupStep
  by_cases hmeta : isMetadataFile g
  · rw [if_pos hmeta]
    simp [hmeta]
  · rw [if_neg hmeta]
    by_cases hid : loggerIdOf g = ""
    · rw [if_pos hid]
      constructor
      · intro h; left; exact h
      · rintro (h | ⟨rfl, _, hlk, hk⟩)
        · exact h
        · exact absurd (hlk ▸ hid) hk
    · rw [if_neg hid]
      unfold addToGroup
      by_cases hk : k = loggerIdOf g
      · subst hk
        rw [if_pos rfl]
        simp only [Option.getD_some, List.mem_append, List.mem_singleton]
        constructor
        · rintro (h | rfl)
          · left; exact h
          · right
            exact ⟨rfl, by simpa using hmeta, by trivial, hid⟩
        · rintro (h | ⟨rfl, _, _, _⟩)
          · left; exact h
          · right; rfl
      · rw [if_neg hk]
        constructor
        · intro h; left; exact h
        · rintro (h | ⟨rfl, _, hlk, _⟩)
          · exact h
          · exact absurd hlk.symm hk

theorem mem_groupRaw :
    ∀ (fs : List PathT) (m : String → Option (List PathT)) (k : String) (f : PathT),
      (f ∈ (groupRaw fs m k).getD []) ↔
        (f ∈ (m k).getD [] ∨
          (f ∈ fs ∧ isMetadataFile f = false ∧ loggerIdOf f = k ∧ k ≠ "")) := by
  intro fs
  induction fs with
  | nil =>
    intro m k f
    simp [groupRaw]
  | cons g gs ih =>
    intro m k f
    have hstep := mem_groupStep m g k f
    calc (f ∈ (groupRaw (g :: gs) m k).getD [])
        ↔ (f ∈ (groupStep m g k).getD [] ∨
            (f ∈ gs ∧ isMetadataFile f = false ∧ loggerIdOf f = k ∧ k ≠ "")) :=
          ih (groupStep m g) k f
      _ ↔ _ := by
          rw [hstep]
          constructor
          · rintro ((h | ⟨rfl, hq⟩) | ⟨hmem, hq⟩)
            · left; exact h
            · right; exact ⟨List.mem_cons_self _ _, hq⟩
            · right; exact ⟨List.mem_cons_of_mem _ hmem, hq⟩
          · rintro (h | ⟨hmem, hq⟩)
            · left; left; exact h
            · rcases List.mem_cons.mp hmem with rfl | hmem
              · left; right; exact ⟨rfl, hq⟩
              · right; exact ⟨hmem, hq⟩

theorem group_getD_sort (files : List PathT) (k : String) :
    ((group_files_by_logger_id files k).getD []) =
      sortLe pathLeB ((groupRaw files (fun _ => none) k).getD []) := by
  unfold group_files_by_logger_id
  cases groupRaw files (fun _ => none) k <;> rfl

/-- C7 (amended): the grouper excludes files whose path contains
`"metadata"` or whose name ends with `"meta.csv"`; every other file lands
exactly in the group of its extracted logger id — the stem up to the first
underscore, replaced by the grandparent directory name only when the
candidate is empty or shorter than 3 characters **and** the file is not a
sangvor file **and** the grandparent name is non-empty and longer than 3
characters, files whose resulting id is empty being dropped; each group is
sorted lexicographically; and the two spec examples group under
`"2005-0070"` and `"A538D8"`. -/
theorem c7_file_grouping :
    (∀ (files : List PathT) (k : String) (f : PathT),
      (f ∈ (group_files_by_logger_id files k).getD []) ↔
        (f ∈ files ∧ isMetadataFile f = false ∧ loggerIdOf f = k ∧ k ≠ "")) ∧
    (∀ (files : List PathT) (k : String),
      ((group_files_by_logger_id files k).getD []).Pairwise
        (fun a b => pathLeB a b = true)) ∧
    group_files_by_logger_id [["2005-0070_20220907_0332.csv"]] "2005-0070" =
      some [["2005-0070_20220907_0332.csv"]] ∧
    group_files_by_logger_id [["A538D8_20220916084244.csv"]] "A538D8" =
      some [["A538D8_20220916084244.csv"]] := by
  refine ⟨?_, ?_, by decide, by decide⟩
  · intro files k f
    rw [group_getD_sort, (sortLe_perm pathLeB _).mem_iff, mem_groupRaw]
    simp
  · intro files k
    rw [group_getD_sort]
    exact pairwise_sortLe pathLeB pathLeB_total pathLeB_trans _

/-- C7 counterexample to the unamended claim: for `"AB1/raw/X_1.csv"` the
candidate `"X"` is shorter than 3 characters, but the grandparent name
`"AB1"` is not **longer** than 3 characters, so the source keeps the short
candidate and groups the file under `"X"`, not under the grandparent
directory name `"AB1"` as the claim requires. -/
theorem c7_counterexample_grandparent_fallback :
    loggerIdOf ["AB1", "raw", "X_1.csv"] = "X" ∧
    group_files_by_logger_id [["AB1", "raw", "X_1.csv"]] "AB1" = none ∧
    group_files_by_logger_id [["AB1", "raw", "X_1.csv"]] "X" =
      some [["AB1", "raw", "X_1.csv"]] :=
  ⟨by decide, by decide, by decide⟩

end TajGST
